import Mathlib

/-!
Verification of the notes/trash lifecycle server (`server.js`) of the
Nethra1619/notes repository.

The server is a thin Express layer over Firebase Realtime Database.  We embed
it shallowly:

* a JS/JSON value is `Val` (strings, numbers, booleans, null); attachment
  objects are never inspected by the server, so any attachment value is
  represented opaquely as a `Val`;
* a JS/JSON object (a note record, a request body) is `Obj`, an association
  list from field names to values, read through first-match lookup;
* a database collection (`users/{uid}/notes`, `users/{uid}/trash`) is `Coll`,
  an association list from generated keys (modelled as `Nat`) to records;
  `push` allocates the next counter value as the fresh key;
* one owner's storage is `OwnerState` (notes, trash, key counter); the whole
  database is `Db`, mapping uids to owner states;
* `Date.now()` is an `Int` parameter `now` supplied per request;
* each authenticated endpoint of `server.js` becomes a function from the
  request data and the owner's state to a response and a new state, following
  the source line by line.
-/

/-- First-match lookup in an association list, as JS object field access and
Firebase child reads behave. -/
def alget {κ β : Type} [DecidableEq κ] : List (κ × β) → κ → Option β
  | [], _ => none
  | (k, v) :: rest, q => if k = q then some v else alget rest q

/-- Remove every entry with the given key (`ref.child(id).remove()`). -/
def alremove {κ β : Type} [DecidableEq κ] (l : List (κ × β)) (k : κ) : List (κ × β) :=
  l.filter (fun p => p.1 ≠ k)

/-- Replace the value stored at a present key in place, keeping order. -/
def alreplace {κ β : Type} [DecidableEq κ] (l : List (κ × β)) (k : κ) (f : β → β) :
    List (κ × β) :=
  l.map (fun p => if p.1 = k then (k, f p.2) else p)

/-- Store a value at a key: overwrite in place when present, append when
absent. -/
def alput {κ β : Type} [DecidableEq κ] (l : List (κ × β)) (k : κ) (v : β) :
    List (κ × β) :=
  match alget l k with
  | some _ => alreplace l k (fun _ => v)
  | none => l ++ [(k, v)]

/-- A JS/JSON value as the server manipulates it.  Attachment objects are
opaque to the server (it never reads inside `file`), so a single constructor
per primitive kind suffices; an attachment reference can be represented by
any `Val`, e.g. its `url` string. -/
inductive Val : Type where
  | str : String → Val
  | int : Int → Val
  | bool : Bool → Val
  | null : Val
deriving DecidableEq, Repr

/-- A JS object / Firebase record: fields to values. -/
abbrev Obj : Type := List (String × Val)

/-- Field access `o.k` (absent field reads as JS `undefined`, here `none`). -/
def Obj.get (o : Obj) (k : String) : Option Val := alget o k

/-- JS truthiness of a value, as used by `req.body.text || ''` and
`if (!note)` in `server.js`. -/
def jsTruthy : Val → Bool
  | .str s => !s.isEmpty
  | .int n => n ≠ 0
  | .bool b => b
  | .null => false

/-- JS `x || d` on a possibly absent value: the default when absent or
falsy. -/
def jsOr (x : Option Val) (d : Val) : Val :=
  match x with
  | some v => if jsTruthy v then v else d
  | none => d

/-- JS object spread update: the result of writing field `k := v` into `o`,
as in a spread literal or a single-field Firebase update.  The field ends up
present with value `v`; all other fields keep their values. -/
def Obj.set (o : Obj) (k : String) (v : Val) : Obj :=
  alremove o k ++ [(k, v)]

/-- Key-wise overlay of `m` onto `o`: fields of `m` win, other fields of `o`
survive.  This is both the JS spread `computed as fields of m override o` and
the Firebase `ref.update(m)` merge on an existing record. -/
def Obj.merge (o m : Obj) : Obj :=
  o.filter (fun p => (alget m p.1).isNone) ++ m

/-- A collection `users/{uid}/notes` or `users/{uid}/trash`: generated keys
to records. -/
abbrev Coll : Type := List (Nat × Obj)

/-- `ref.child(id).update(m)`: merge `m` into the child when it exists,
create the child holding exactly `m` when it does not (Firebase update is an
upsert of the named fields). -/
def childUpdate (c : Coll) (id : Nat) (m : Obj) : Coll :=
  match alget c id with
  | some _ => alreplace c id (fun o => Obj.merge o m)
  | none => c ++ [(id, m)]

/-- The storage of one owner (`users/{uid}`): active notes, trash, and the
push-key counter.  Firebase push keys are fresh, unique, generated by the
store; we model the generator as a counter whose past outputs are exactly the
keys in use. -/
structure OwnerState : Type where
  notes : Coll
  trash : Coll
  next : Nat
deriving DecidableEq, Repr

/-- An owner state with well-formed key bookkeeping: keys are unique within
each collection and every key in use was produced by the generator (is below
the counter), so the next generated key is fresh. -/
def OwnerState.WF (st : OwnerState) : Prop :=
  (st.notes.map Prod.fst).Nodup ∧ (st.trash.map Prod.fst).Nodup ∧
  (∀ k ∈ st.notes.map Prod.fst, k < st.next) ∧
  (∀ k ∈ st.trash.map Prod.fst, k < st.next)

instance (st : OwnerState) : Decidable st.WF := by
  unfold OwnerState.WF; infer_instance

/-- A response of an authenticated endpoint of `server.js`:
`{ok:true}`, `{id, ...record}`, a listing array of `{id, ...record}`, or a
404 with its error message. -/
inductive Resp : Type where
  | ok : Resp
  | record : Nat → Obj → Resp
  | listing : List (Nat × Obj) → Resp
  | notFound : String → Resp
deriving DecidableEq, Repr

/-- `GET /api/notes`: list the owner's active notes as `{id, ...data}`. -/
def listNotes (st : OwnerState) : Resp × OwnerState :=
  (Resp.listing st.notes, st)

/-- The note record built by `POST /api/notes`:
`{ text: req.body.text || '', file: req.body.file || null,
createdAt: Date.now(), updatedAt: Date.now() }`. -/
def mkNote (body : Obj) (now : Int) : Obj :=
  [("text", jsOr (body.get "text") (Val.str "")),
   ("file", jsOr (body.get "file") Val.null),
   ("createdAt", Val.int now),
   ("updatedAt", Val.int now)]

/-- `POST /api/notes`: build the note, push it under a fresh key, return
`{id: ref.key, ...note}`. -/
def createNote (body : Obj) (now : Int) (st : OwnerState) : Resp × OwnerState :=
  let note := mkNote body now
  (Resp.record st.next note,
   { st with notes := st.notes ++ [(st.next, note)], next := st.next + 1 })

/-- `PUT /api/notes/:id`: build `{...req.body, updatedAt: Date.now()}`,
apply `notesRef(uid).child(id).update(update)`, re-read the child and return
`{id, ...snap.val()}`. -/
def updateNote (id : Nat) (body : Obj) (now : Int) (st : OwnerState) :
    Resp × OwnerState :=
  let u := Obj.set body "updatedAt" (Val.int now)
  let notes2 := childUpdate st.notes id u
  (Resp.record id ((alget notes2 id).getD []), { st with notes := notes2 })

/-- The trash record written by `DELETE /api/notes/:id`:
`{...note, deletedAt: Date.now()}`. -/
def mkTrashed (note : Obj) (now : Int) : Obj :=
  Obj.set note "deletedAt" (Val.int now)

/-- `DELETE /api/notes/:id`: read the active note; 404 when absent;
otherwise push `{...note, deletedAt}` into trash, then remove the active
entry, then answer `{ok:true}`. -/
def softDelete (id : Nat) (now : Int) (st : OwnerState) : Resp × OwnerState :=
  match alget st.notes id with
  | none => (Resp.notFound "Note not found", st)
  | some note =>
    (Resp.ok,
     { st with trash := st.trash ++ [(st.next, mkTrashed note now)],
               notes := alremove st.notes id,
               next := st.next + 1 })

/-- `GET /api/trash`: list the owner's trash as `{id, ...data}`. -/
def listTrash (st : OwnerState) : Resp × OwnerState :=
  (Resp.listing st.trash, st)

/-- `POST /api/trash/restore/:id`: read the trash item; 404 when absent;
otherwise push the item — verbatim, `deletedAt` included — into the active
collection, then remove the trash entry, then answer `{id: newRef.key,
...item}`. -/
def restore (id : Nat) (st : OwnerState) : Resp × OwnerState :=
  match alget st.trash id with
  | none => (Resp.notFound "Trash item not found", st)
  | some item =>
    (Resp.record st.next item,
     { st with notes := st.notes ++ [(st.next, item)],
               trash := alremove st.trash id,
               next := st.next + 1 })

/-- `DELETE /api/trash/:id`: remove the trash child unconditionally and
answer `{ok:true}`. -/
def permDelete (id : Nat) (st : OwnerState) : Resp × OwnerState :=
  (Resp.ok, { st with trash := alremove st.trash id })

/-! ### Step traces of the two-write operations

`softDelete` and `restore` each perform two awaited store writes in source
order: create in the destination collection, then remove from the source
collection.  The trace lists the owner states observed before the first
write, between the writes, and after the second; a failure of the removal
step leaves the middle state. -/

/-- States of `DELETE /api/notes/:id` on a present note: initial, after the
awaited `trashRef.push`, after the awaited `notesRef.child(id).remove()`. -/
def softDeleteTrace (id : Nat) (now : Int) (st : OwnerState) : List OwnerState :=
  match alget st.notes id with
  | none => [st]
  | some note =>
    [st,
     { st with trash := st.trash ++ [(st.next, mkTrashed note now)],
               next := st.next + 1 },
     { st with trash := st.trash ++ [(st.next, mkTrashed note now)],
               notes := alremove st.notes id,
               next := st.next + 1 }]

/-- States of `POST /api/trash/restore/:id` on a present item: initial,
after the awaited `notesRef.push(item)`, after the awaited
`trashRef.child(id).remove()`. -/
def restoreTrace (id : Nat) (st : OwnerState) : List OwnerState :=
  match alget st.trash id with
  | none => [st]
  | some item =>
    [st,
     { st with notes := st.notes ++ [(st.next, item)], next := st.next + 1 },
     { st with notes := st.notes ++ [(st.next, item)],
               trash := alremove st.trash id,
               next := st.next + 1 }]

/-! ### The whole database and owner scoping

`notesRef(uid)`/`trashRef(uid)` address `users/{uid}/...`; the uid comes
exclusively from `verifyTokenMiddleware` (`req.user.uid`), never from the
request body or path.  Every endpoint reads and writes only under the
verified uid. -/

/-- The whole database: uid to owner storage. -/
abbrev Db : Type := List (String × OwnerState)

/-- The storage of one owner; absent paths read as empty (Firebase `null`,
`snap.val() || {}`). -/
def getOwner (db : Db) (uid : String) : OwnerState :=
  (alget db uid).getD ⟨[], [], 0⟩

/-- Write back one owner's storage. -/
def setOwner (db : Db) (uid : String) (st : OwnerState) : Db :=
  alput db uid st

/-- Run an owner-scoped operation as the verified uid: every endpoint of
`server.js` factors through this shape — it reads `users/{uid}` and writes
only `users/{uid}`. -/
def runOwner (uid : String) (f : OwnerState → Resp × OwnerState) (db : Db) :
    Resp × Db :=
  let out := f (getOwner db uid)
  (out.1, setOwner db uid out.2)

/-- `GET /api/notes` at database level. -/
def apiListNotes (uid : String) (db : Db) : Resp × Db :=
  runOwner uid listNotes db

/-- `POST /api/notes` at database level. -/
def apiCreateNote (uid : String) (body : Obj) (now : Int) (db : Db) : Resp × Db :=
  runOwner uid (createNote body now) db

/-- `PUT /api/notes/:id` at database level. -/
def apiUpdateNote (uid : String) (id : Nat) (body : Obj) (now : Int) (db : Db) :
    Resp × Db :=
  runOwner uid (updateNote id body now) db

/-- `DELETE /api/notes/:id` at database level. -/
def apiSoftDelete (uid : String) (id : Nat) (now : Int) (db : Db) : Resp × Db :=
  runOwner uid (softDelete id now) db

/-- `GET /api/trash` at database level. -/
def apiListTrash (uid : String) (db : Db) : Resp × Db :=
  runOwner uid listTrash db

/-- `POST /api/trash/restore/:id` at database level. -/
def apiRestore (uid : String) (id : Nat) (db : Db) : Resp × Db :=
  runOwner uid (restore id) db

/-- `DELETE /api/trash/:id` at database level. -/
def apiPermDelete (uid : String) (id : Nat) (db : Db) : Resp × Db :=
  runOwner uid (permDelete id) db

/-! ### Lookup lemmas for the store primitives -/

theorem alget_append_of_none {κ β : Type} [DecidableEq κ] {a : List (κ × β)} {q : κ}
    (b : List (κ × β)) (h : alget a q = none) : alget (a ++ b) q = alget b q := by
  induction a with
  | nil => rfl
  | cons p rest ih =>
    obtain ⟨k, v⟩ := p
    by_cases hk : k = q
    · simp [alget, hk] at h
    · simp only [List.cons_append, alget, if_neg hk] at h ⊢
      exact ih h

theorem alget_append_of_some {κ β : Type} [DecidableEq κ] {a : List (κ × β)} {q : κ}
    {v : β} (b : List (κ × β)) (h : alget a q = some v) : alget (a ++ b) q = some v := by
  induction a with
  | nil => simp [alget] at h
  | cons p rest ih =>
    obtain ⟨k, w⟩ := p
    by_cases hk : k = q
    · simp only [alget, if_pos hk] at h
      simp only [List.cons_append, alget, if_pos hk]
      exact h
    · simp only [List.cons_append, alget, if_neg hk] at h ⊢
      exact ih h

theorem alget_alremove_self {κ β : Type} [DecidableEq κ] (l : List (κ × β)) (k : κ) :
    alget (alremove l k) k = none := by
  induction l with
  | nil => rfl
  | cons p rest ih =>
    obtain ⟨k0, v0⟩ := p
    by_cases hk : k0 = k
    · simpa [alremove, List.filter_cons, hk] using ih
    · simpa [alremove, List.filter_cons, hk, alget] using ih
theorem alget_cons {κ β : Type} [DecidableEq κ] (k : κ) (v : β) (rest : List (κ × β))
    (q : κ) : alget ((k, v) :: rest) q = if k = q then some v else alget rest q := rfl

theorem alget_alremove_other {κ β : Type} [DecidableEq κ] (l : List (κ × β)) (r k : κ)
    (h : k ≠ r) : alget (alremove l r) k = alget l k := by
  induction l with
  | nil => rfl
  | cons p rest ih =>
    obtain ⟨k0, v0⟩ := p
    by_cases hk : k0 = r
    · have hk2 : ¬ k0 = k := by
        rw [hk]
        exact fun h2 => h h2.symm
      rw [show alremove ((k0, v0) :: rest) r = alremove rest r by
            simp [alremove, List.filter_cons, hk]]
      rw [alget_cons, if_neg hk2]
      exact ih
    · rw [show alremove ((k0, v0) :: rest) r = (k0, v0) :: alremove rest r by
            simp [alremove, List.filter_cons, hk]]
      rw [alget_cons, alget_cons, ih]

theorem alget_alreplace_self {κ β : Type} [DecidableEq κ] (l : List (κ × β)) (k : κ)
    (f : β → β) : alget (alreplace l k f) k = (alget l k).map f := by
  induction l with
  | nil => rfl
  | cons p rest ih =>
    obtain ⟨k0, v0⟩ := p
    by_cases hk : k0 = k
    · subst hk
      rw [show alreplace ((k0, v0) :: rest) k0 f = (k0, f v0) :: alreplace rest k0 f by
            simp [alreplace]]
      rw [alget_cons, alget_cons, if_pos rfl, if_pos rfl]
      rfl
    · rw [show alreplace ((k0, v0) :: rest) k f = (k0, v0) :: alreplace rest k f by
            simp [alreplace, hk]]
      rw [alget_cons, alget_cons, if_neg hk, if_neg hk]
      exact ih

theorem alget_alreplace_other {κ β : Type} [DecidableEq κ] (l : List (κ × β)) (r k : κ)
    (f : β → β) (h : k ≠ r) : alget (alreplace l r f) k = alget l k := by
  induction l with
  | nil => rfl
  | cons p rest ih =>
    obtain ⟨k0, v0⟩ := p
    have hr2 : ¬ r = k := fun h2 => h h2.symm
    by_cases hk : k0 = r
    · have hk2 : ¬ k0 = k := by
        rw [hk]
        exact hr2
      rw [show alreplace ((k0, v0) :: rest) r f = (r, f v0) :: alreplace rest r f by
            simp [alreplace, hk]]
      rw [alget_cons, alget_cons, if_neg hr2, if_neg hk2]
      exact ih
    · rw [show alreplace ((k0, v0) :: rest) r f = (k0, v0) :: alreplace rest r f by
            simp [alreplace, hk]]
      rw [alget_cons, alget_cons, ih]

theorem alget_mem {κ β : Type} [DecidableEq κ] {l : List (κ × β)} {k : κ} {v : β}
    (h : alget l k = some v) : k ∈ l.map Prod.fst := by
  induction l with
  | nil => simp [alget] at h
  | cons p rest ih =>
    obtain ⟨k0, v0⟩ := p
    by_cases hk : k0 = k
    · simp [hk]
    · rw [alget_cons, if_neg hk] at h
      simpa using Or.inr (ih h)

theorem alget_none_of_lt {β : Type} {l : List (Nat × β)} {n : Nat}
    (h : ∀ k ∈ l.map Prod.fst, k < n) : alget l n = none := by
  cases hv : alget l n with
  | none => rfl
  | some v => exact absurd (h n (alget_mem hv)) (lt_irrefl n)

theorem alget_append_single {κ β : Type} [DecidableEq κ] (l : List (κ × β)) (k q : κ)
    (v : β) (h : q ≠ k) : alget (l ++ [(k, v)]) q = alget l q := by
  cases hq : alget l q with
  | none =>
    rw [alget_append_of_none _ hq]
    have hk : ¬ k = q := fun h2 => h h2.symm
    simp [alget, hk]
  | some w => rw [alget_append_of_some _ hq]

theorem alget_alput_self {κ β : Type} [DecidableEq κ] (l : List (κ × β)) (k : κ)
    (v : β) : alget (alput l k v) k = some v := by
  rw [alput]
  cases hv : alget l k with
  | none =>
    show alget (l ++ [(k, v)]) k = some v
    rw [alget_append_of_none _ hv, alget_cons, if_pos rfl]
  | some w =>
    show alget (alreplace l k (fun _ => v)) k = some v
    rw [alget_alreplace_self, hv]
    rfl

theorem alget_alput_other {κ β : Type} [DecidableEq κ] (l : List (κ × β)) (k q : κ)
    (v : β) (h : q ≠ k) : alget (alput l k v) q = alget l q := by
  rw [alput]
  cases hv : alget l k with
  | none =>
    show alget (l ++ [(k, v)]) q = alget l q
    exact alget_append_single l k q v h
  | some w =>
    show alget (alreplace l k (fun _ => v)) q = alget l q
    exact alget_alreplace_other l k q _ h

theorem Obj.get_set_self (o : Obj) (k : String) (v : Val) :
    (o.set k v).get k = some v := by
  unfold Obj.set Obj.get
  rw [alget_append_of_none _ (alget_alremove_self o k), alget_cons, if_pos rfl]

theorem Obj.get_set_other (o : Obj) (k q : String) (v : Val) (h : q ≠ k) :
    (o.set k v).get q = o.get q := by
  unfold Obj.set Obj.get
  rw [show alget (alremove o k ++ [(k, v)]) q = alget (alremove o k) q from
        alget_append_single _ k q v h]
  exact alget_alremove_other o k q h

theorem alget_merge_filter_of_some (o m : Obj) (q : String)
    (hq : (alget m q).isSome) :
    alget (o.filter (fun p => (alget m p.1).isNone)) q = none := by
  induction o with
  | nil => rfl
  | cons p rest ih =>
    obtain ⟨k0, v0⟩ := p
    by_cases hk : k0 = q
    · have hc : (alget m k0).isNone = false := by
        rw [hk]
        cases hm : alget m q
        · rw [hm] at hq
          simp at hq
        · rfl
      rw [show List.filter (fun p => (alget m p.1).isNone) ((k0, v0) :: rest)
            = List.filter (fun p => (alget m p.1).isNone) rest by
            simp [List.filter_cons, hc]]
      exact ih
    · by_cases hc : (alget m k0).isNone
      · rw [show List.filter (fun p => (alget m p.1).isNone) ((k0, v0) :: rest)
              = (k0, v0) :: List.filter (fun p => (alget m p.1).isNone) rest by
              simp [List.filter_cons, hc]]
        rw [alget_cons, if_neg hk]
        exact ih
      · rw [show List.filter (fun p => (alget m p.1).isNone) ((k0, v0) :: rest)
              = List.filter (fun p => (alget m p.1).isNone) rest by
              simp [List.filter_cons, hc]]
        exact ih

theorem alget_merge_filter_of_none (o m : Obj) (q : String)
    (hq : alget m q = none) :
    alget (o.filter (fun p => (alget m p.1).isNone)) q = alget o q := by
  induction o with
  | nil => rfl
  | cons p rest ih =>
    obtain ⟨k0, v0⟩ := p
    by_cases hk : k0 = q
    · have hc : (alget m k0).isNone = true := by
        rw [hk, hq]
        rfl
      rw [show List.filter (fun p => (alget m p.1).isNone) ((k0, v0) :: rest)
            = (k0, v0) :: List.filter (fun p => (alget m p.1).isNone) rest by
            simp [List.filter_cons, hc]]
      rw [alget_cons, alget_cons, if_pos hk, if_pos hk]
    · by_cases hc : (alget m k0).isNone
      · rw [show List.filter (fun p => (alget m p.1).isNone) ((k0, v0) :: rest)
              = (k0, v0) :: List.filter (fun p => (alget m p.1).isNone) rest by
              simp [List.filter_cons, hc]]
        rw [alget_cons, alget_cons, if_neg hk, if_neg hk]
        exact ih
      · rw [show List.filter (fun p => (alget m p.1).isNone) ((k0, v0) :: rest)
              = List.filter (fun p => (alget m p.1).isNone) rest by
              simp [List.filter_cons, hc]]
        rw [alget_cons, if_neg hk]
        exact ih

theorem Obj.get_merge_of_some (o m : Obj) (q : String) (v : Val)
    (h : alget m q = some v) : (o.merge m).get q = some v := by
  unfold Obj.merge Obj.get
  rw [alget_append_of_none _ (alget_merge_filter_of_some o m q (by rw [h]; rfl)), h]

theorem Obj.get_merge_of_none (o m : Obj) (q : String)
    (h : alget m q = none) : (o.merge m).get q = o.get q := by
  unfold Obj.merge Obj.get
  cases ho : alget o q with
  | none =>
    rw [alget_append_of_none _ (by rw [alget_merge_filter_of_none o m q h]; exact ho), h]
  | some w =>
    rw [alget_append_of_some _ (by rw [alget_merge_filter_of_none o m q h]; exact ho)]

theorem childUpdate_get_present {c : Coll} {id : Nat} {o : Obj} (m : Obj)
    (h : alget c id = some o) :
    alget (childUpdate c id m) id = some (Obj.merge o m) := by
  rw [childUpdate, h]
  show alget (alreplace c id (fun o2 => Obj.merge o2 m)) id = some (Obj.merge o m)
  rw [alget_alreplace_self, h]
  rfl

theorem childUpdate_get_absent {c : Coll} {id : Nat} (m : Obj)
    (h : alget c id = none) : alget (childUpdate c id m) id = some m := by
  rw [childUpdate, h]
  show alget (c ++ [(id, m)]) id = some m
  rw [alget_append_of_none _ h, alget_cons, if_pos rfl]

theorem childUpdate_get_other {c : Coll} {id q : Nat} (m : Obj) (h : q ≠ id) :
    alget (childUpdate c id m) q = alget c q := by
  rw [childUpdate]
  cases hv : alget c id with
  | none =>
    show alget (c ++ [(id, m)]) q = alget c q
    exact alget_append_single c id q m h
  | some o =>
    show alget (alreplace c id (fun o2 => Obj.merge o2 m)) q = alget c q
    exact alget_alreplace_other c id q _ h

/-! ### Derived facts used by several theorems -/

theorem not_mem_keys_alremove {κ β : Type} [DecidableEq κ] (l : List (κ × β)) (k : κ) :
    k ∉ (alremove l k).map Prod.fst := by
  intro h
  obtain ⟨p, hp, hfst⟩ := List.mem_map.mp h
  have hmem := List.mem_filter.mp hp
  rw [hfst] at hmem
  simp at hmem

/-- Whether a response is a 404. -/
def Resp.isNotFound : Resp → Bool
  | .notFound _ => true
  | _ => false

/-- C6: PermanentDelete is idempotent — it answers `{ok:true}` whether or not
the trash entry exists, afterwards the trash no longer contains the id, a
second call with the same id also succeeds and changes nothing further, and
the active collection is untouched. -/
theorem permDelete_idempotent (id : Nat) (st : OwnerState) :
    (permDelete id st).1 = Resp.ok ∧
    alget (permDelete id st).2.trash id = none ∧
    permDelete id (permDelete id st).2 = (Resp.ok, (permDelete id st).2) ∧
    (permDelete id st).2.notes = st.notes := by
  refine ⟨rfl, alget_alremove_self st.trash id, ?_, rfl⟩
  have h : alremove (alremove st.trash id) id = alremove st.trash id := by
    simp [alremove, List.filter_filter]
  show (Resp.ok, ({ st with trash := alremove (alremove st.trash id) id } : OwnerState))
      = (Resp.ok, ({ st with trash := alremove st.trash id } : OwnerState))
  rw [h]

/-- C7: Create persists a note whose `createdAt` equals `updatedAt` (both the
current time), under a fresh store-generated id not yet present in the active
collection, appends exactly one entry, and returns the full record including
that id. -/
theorem create_full_record (body : Obj) (now : Int) (st : OwnerState)
    (hwf : st.WF) :
    (createNote body now st).1 = Resp.record st.next (mkNote body now) ∧
    (mkNote body now).get "createdAt" = some (Val.int now) ∧
    (mkNote body now).get "updatedAt" = some (Val.int now) ∧
    alget st.notes st.next = none ∧
    (createNote body now st).2.notes = st.notes ++ [(st.next, mkNote body now)] ∧
    alget (createNote body now st).2.notes st.next = some (mkNote body now) := by
  have hfresh : alget st.notes st.next = none := alget_none_of_lt hwf.2.2.1
  refine ⟨rfl, ?_, ?_, hfresh, rfl, ?_⟩
  · simp [mkNote, Obj.get, alget]
  · simp [mkNote, Obj.get, alget]
  · show alget (st.notes ++ [(st.next, mkNote body now)]) st.next = _
    rw [alget_append_of_none _ hfresh, alget_cons, if_pos rfl]

/-- Witness for `create_full_record` at a concrete empty store. -/
theorem create_full_record_witness :
    (createNote [] 5 ⟨[], [], 0⟩).1 = Resp.record 0 (mkNote [] 5) ∧
    (mkNote [] 5).get "createdAt" = some (Val.int 5) ∧
    (mkNote [] 5).get "updatedAt" = some (Val.int 5) ∧
    alget (⟨[], [], 0⟩ : OwnerState).notes 0 = none ∧
    (createNote [] 5 ⟨[], [], 0⟩).2.notes = [] ++ [(0, mkNote [] 5)] ∧
    alget (createNote [] 5 ⟨[], [], 0⟩).2.notes 0 = some (mkNote [] 5) :=
  create_full_record [] 5 ⟨[], [], 0⟩ (by decide)

/-- C4 counterexample: `PUT /api/notes/:id` on an id absent from the active
collection does not answer 404 — Firebase `update` upserts, so a record
`{...body, updatedAt}` is created under the missing id and returned. -/
theorem update_missing_id_cex :
    (updateNote 3 [("done", Val.bool true)] 7 ⟨[], [], 0⟩).1 =
      Resp.record 3 [("done", Val.bool true), ("updatedAt", Val.int 7)] ∧
    ((updateNote 3 [("done", Val.bool true)] 7 ⟨[], [], 0⟩).1.isNotFound) = false ∧
    alget (updateNote 3 [("done", Val.bool true)] 7 ⟨[], [], 0⟩).2.notes 3 =
      some [("done", Val.bool true), ("updatedAt", Val.int 7)] := by
  decide

/-- C4 amended: when the id is absent from the owner's active collection,
Update does not fail with NotFound; it creates (upserts) a record holding
exactly the supplied fields plus `updatedAt = now` under that id, and returns
it. -/
theorem update_missing_id_upserts (id : Nat) (body : Obj) (now : Int)
    (st : OwnerState) (h : alget st.notes id = none) :
    updateNote id body now st =
      (Resp.record id (Obj.set body "updatedAt" (Val.int now)),
       { st with notes := st.notes ++ [(id, Obj.set body "updatedAt" (Val.int now))] }) ∧
    (updateNote id body now st).1.isNotFound = false ∧
    alget (updateNote id body now st).2.notes id =
      some (Obj.set body "updatedAt" (Val.int now)) := by
  have hc : childUpdate st.notes id (Obj.set body "updatedAt" (Val.int now))
      = st.notes ++ [(id, Obj.set body "updatedAt" (Val.int now))] := by
    rw [childUpdate, h]
  have h2 : alget (st.notes ++ [(id, Obj.set body "updatedAt" (Val.int now))]) id
      = some (Obj.set body "updatedAt" (Val.int now)) := by
    rw [alget_append_of_none _ h, alget_cons, if_pos rfl]
  refine ⟨?_, ?_, ?_⟩
  · show (Resp.record id
        ((alget (childUpdate st.notes id (Obj.set body "updatedAt" (Val.int now))) id).getD []),
        ({ st with notes := childUpdate st.notes id (Obj.set body "updatedAt" (Val.int now)) }
          : OwnerState)) = _
    rw [hc, h2]
    rfl
  · show (Resp.record id
        ((alget (childUpdate st.notes id (Obj.set body "updatedAt" (Val.int now))) id).getD [])).isNotFound
        = false
    rfl
  · show alget (childUpdate st.notes id (Obj.set body "updatedAt" (Val.int now))) id = _
    rw [hc, h2]

/-- Witness for `update_missing_id_upserts` on a concrete empty store. -/
theorem update_missing_id_upserts_witness :
    updateNote 3 [("done", Val.bool true)] 7 ⟨[], [], 0⟩ =
      (Resp.record 3 (Obj.set [("done", Val.bool true)] "updatedAt" (Val.int 7)),
       { notes := [] ++ [(3, Obj.set [("done", Val.bool true)] "updatedAt" (Val.int 7))],
         trash := [], next := 0 }) ∧
    (updateNote 3 [("done", Val.bool true)] 7 ⟨[], [], 0⟩).1.isNotFound = false ∧
    alget (updateNote 3 [("done", Val.bool true)] 7 ⟨[], [], 0⟩).2.notes 3 =
      some (Obj.set [("done", Val.bool true)] "updatedAt" (Val.int 7)) :=
  update_missing_id_upserts 3 [("done", Val.bool true)] 7 ⟨[], [], 0⟩ (by decide)

/-- C3: a successful SoftDelete is a move, not a copy — the id disappears
from the active collection (a subsequent `List()` cannot contain it), exactly
one new trash entry is appended carrying all of the note's fields plus
`deletedAt = now`; on a missing id it answers 404 and leaves both
collections unchanged. -/
theorem softDelete_moves_note (id : Nat) (now : Int) (st : OwnerState) :
    (∀ note, alget st.notes id = some note →
       softDelete id now st =
         (Resp.ok,
          { st with trash := st.trash ++ [(st.next, mkTrashed note now)],
                    notes := alremove st.notes id,
                    next := st.next + 1 }) ∧
       alget (softDelete id now st).2.notes id = none ∧
       id ∉ ((softDelete id now st).2.notes.map Prod.fst) ∧
       (softDelete id now st).2.trash = st.trash ++ [(st.next, mkTrashed note now)] ∧
       (mkTrashed note now).get "deletedAt" = some (Val.int now) ∧
       (∀ q, q ≠ "deletedAt" → (mkTrashed note now).get q = note.get q)) ∧
    (alget st.notes id = none →
       softDelete id now st = (Resp.notFound "Note not found", st)) := by
  constructor
  · intro note h
    have hd : softDelete id now st =
        (Resp.ok,
         { st with trash := st.trash ++ [(st.next, mkTrashed note now)],
                   notes := alremove st.notes id,
                   next := st.next + 1 }) := by
      rw [softDelete, h]
    refine ⟨hd, ?_, ?_, ?_, ?_, ?_⟩
    · rw [hd]
      exact alget_alremove_self st.notes id
    · rw [hd]
      exact not_mem_keys_alremove st.notes id
    · rw [hd]
    · exact Obj.get_set_self note "deletedAt" (Val.int now)
    · intro q hq
      exact Obj.get_set_other note "deletedAt" q (Val.int now) hq
  · intro h
    rw [softDelete, h]

/-- Witness for `softDelete_moves_note`: a one-note store, both the present
and the absent branch. -/
theorem softDelete_moves_note_witness :
    alget (softDelete 0 7 ⟨[(0, [("text", Val.str "a")])], [], 1⟩).2.notes 0 = none ∧
    (softDelete 0 7 ⟨[(0, [("text", Val.str "a")])], [], 1⟩).2.trash
      = [] ++ [(1, mkTrashed [("text", Val.str "a")] 7)] ∧
    softDelete 5 7 ⟨[(0, [("text", Val.str "a")])], [], 1⟩
      = (Resp.notFound "Note not found", ⟨[(0, [("text", Val.str "a")])], [], 1⟩) := by
  have h := (softDelete_moves_note 0 7 ⟨[(0, [("text", Val.str "a")])], [], 1⟩).1
    [("text", Val.str "a")] rfl
  have h2 := softDelete_moves_note 5 7 ⟨[(0, [("text", Val.str "a")])], [], 1⟩
  exact ⟨h.2.1, h.2.2.2.1, h2.2 rfl⟩

/-- C1 counterexample: restoring the trash entry
`{text:"m", deletedAt:5}` produces an active note that still contains the
`deletedAt` field — `server.js` pushes the trash item verbatim instead of
dropping `deletedAt`, so the claim "the restored note does not contain a
deletedAt field" is false. -/
theorem restore_keeps_deletedAt_cex :
    alget (restore 0 ⟨[], [(0, [("text", Val.str "m"), ("deletedAt", Val.int 5)])], 1⟩).2.notes 1
      = some [("text", Val.str "m"), ("deletedAt", Val.int 5)] ∧
    Obj.get [("text", Val.str "m"), ("deletedAt", Val.int 5)] "deletedAt" ≠ none := by
  decide

/-- C1 amended: a successful Restore(T.id) creates a new active note that is
T's record verbatim — its `text` and `attachment` equal T's, but the
`deletedAt` field is retained rather than dropped — under a fresh id
distinct from T.id, removes T from the trash, and returns the new record;
Restore answers NotFound when no trash entry with that id exists. -/
theorem restore_content_preserving (tid : Nat) (st : OwnerState) (hwf : st.WF) :
    (∀ item, alget st.trash tid = some item →
       restore tid st =
         (Resp.record st.next item,
          { st with notes := st.notes ++ [(st.next, item)],
                    trash := alremove st.trash tid,
                    next := st.next + 1 }) ∧
       alget (restore tid st).2.notes st.next = some item ∧
       (∀ o, alget (restore tid st).2.notes st.next = some o →
          o.get "text" = item.get "text" ∧ o.get "file" = item.get "file" ∧
          o.get "deletedAt" = item.get "deletedAt") ∧
       st.next ≠ tid ∧
       alget (restore tid st).2.trash tid = none) ∧
    (alget st.trash tid = none →
       restore tid st = (Resp.notFound "Trash item not found", st)) := by
  constructor
  · intro item h
    have hd : restore tid st =
        (Resp.record st.next item,
         { st with notes := st.notes ++ [(st.next, item)],
                   trash := alremove st.trash tid,
                   next := st.next + 1 }) := by
      rw [restore, h]
    have hfresh : alget st.notes st.next = none := alget_none_of_lt hwf.2.2.1
    have hget : alget (restore tid st).2.notes st.next = some item := by
      rw [hd]
      show alget (st.notes ++ [(st.next, item)]) st.next = some item
      rw [alget_append_of_none _ hfresh, alget_cons, if_pos rfl]
    refine ⟨hd, hget, ?_, ?_, ?_⟩
    · intro o ho
      rw [hget] at ho
      cases ho
      exact ⟨rfl, rfl, rfl⟩
    · have htid : tid < st.next := hwf.2.2.2 tid (alget_mem h)
      exact fun h2 => absurd (h2 ▸ htid) (lt_irrefl _)
    · rw [hd]
      exact alget_alremove_self st.trash tid
  · intro h
    rw [restore, h]

/-- Witness for `restore_content_preserving`: a one-entry trash, both the
present and the absent branch. -/
theorem restore_content_preserving_witness :
    alget (restore 0 ⟨[], [(0, [("text", Val.str "m"), ("deletedAt", Val.int 5)])], 1⟩).2.notes 1
      = some [("text", Val.str "m"), ("deletedAt", Val.int 5)] ∧
    alget (restore 0 ⟨[], [(0, [("text", Val.str "m"), ("deletedAt", Val.int 5)])], 1⟩).2.trash 0
      = none ∧
    restore 4 ⟨[], [(0, [("text", Val.str "m"), ("deletedAt", Val.int 5)])], 1⟩
      = (Resp.notFound "Trash item not found",
         ⟨[], [(0, [("text", Val.str "m"), ("deletedAt", Val.int 5)])], 1⟩) := by
  have h := ((restore_content_preserving 0
    ⟨[], [(0, [("text", Val.str "m"), ("deletedAt", Val.int 5)])], 1⟩ (by decide)).1
    [("text", Val.str "m"), ("deletedAt", Val.int 5)] rfl)
  have h2 := restore_content_preserving 4
    ⟨[], [(0, [("text", Val.str "m"), ("deletedAt", Val.int 5)])], 1⟩ (by decide)
  exact ⟨h.2.1, h.2.2.2.2, h2.2 rfl⟩

/-- C5: Update merges only the supplied fields into the stored record — any
field absent from the input (other than the always-refreshed `updatedAt`)
keeps its old value; in particular `{done:true}` on a note with text leaves
`text` unchanged, sets `done` to `true`, and stores `updatedAt = now`, which
is strictly greater than the note's previous `updatedAt` whenever the clock
advanced since that update. -/
theorem update_merge_semantics (id : Nat) (body o : Obj) (now t0 : Int)
    (st : OwnerState) (h : alget st.notes id = some o)
    (ht : o.get "updatedAt" = some (Val.int t0)) (hclock : t0 < now) :
    alget (updateNote id body now st).2.notes id
      = some (Obj.merge o (Obj.set body "updatedAt" (Val.int now))) ∧
    (∀ q, q ≠ "updatedAt" → body.get q = none →
       (Obj.merge o (Obj.set body "updatedAt" (Val.int now))).get q = o.get q) ∧
    (body.get "done" = some (Val.bool true) →
       (Obj.merge o (Obj.set body "updatedAt" (Val.int now))).get "done"
         = some (Val.bool true)) ∧
    (body.get "text" = none →
       (Obj.merge o (Obj.set body "updatedAt" (Val.int now))).get "text"
         = o.get "text") ∧
    (Obj.merge o (Obj.set body "updatedAt" (Val.int now))).get "updatedAt"
      = some (Val.int now) ∧
    t0 < now := by
  refine ⟨?_, ?_, ?_, ?_, ?_, hclock⟩
  · show alget (childUpdate st.notes id (Obj.set body "updatedAt" (Val.int now))) id = _
    exact childUpdate_get_present _ h
  · intro q hq hnone
    have hu : alget (Obj.set body "updatedAt" (Val.int now)) q = none := by
      have := Obj.get_set_other body "updatedAt" q (Val.int now) hq
      unfold Obj.get at this
      rw [this]
      exact hnone
    exact Obj.get_merge_of_none o _ q hu
  · intro hdone
    have hu : alget (Obj.set body "updatedAt" (Val.int now)) "done"
        = some (Val.bool true) := by
      have := Obj.get_set_other body "updatedAt" "done" (Val.int now) (by decide)
      unfold Obj.get at this
      rw [this]
      exact hdone
    exact Obj.get_merge_of_some o _ "done" _ hu
  · intro hnone
    have hu : alget (Obj.set body "updatedAt" (Val.int now)) "text" = none := by
      have := Obj.get_set_other body "updatedAt" "text" (Val.int now) (by decide)
      unfold Obj.get at this
      rw [this]
      exact hnone
    exact Obj.get_merge_of_none o _ "text" hu
  · have hu : alget (Obj.set body "updatedAt" (Val.int now)) "updatedAt"
        = some (Val.int now) := by
      have := Obj.get_set_self body "updatedAt" (Val.int now)
      unfold Obj.get at this
      exact this
    exact Obj.get_merge_of_some o _ "updatedAt" _ hu

/-- Witness for `update_merge_semantics`: `{done:true}` applied at time 9 to
a note `{text:"a", updatedAt:2}` stored under id 0. -/
theorem update_merge_semantics_witness :
    alget (updateNote 0 [("done", Val.bool true)] 9
        ⟨[(0, [("text", Val.str "a"), ("updatedAt", Val.int 2)])], [], 1⟩).2.notes 0
      = some (Obj.merge [("text", Val.str "a"), ("updatedAt", Val.int 2)]
          (Obj.set [("done", Val.bool true)] "updatedAt" (Val.int 9))) ∧
    (Obj.merge [("text", Val.str "a"), ("updatedAt", Val.int 2)]
        (Obj.set [("done", Val.bool true)] "updatedAt" (Val.int 9))).get "done"
      = some (Val.bool true) ∧
    (Obj.merge [("text", Val.str "a"), ("updatedAt", Val.int 2)]
        (Obj.set [("done", Val.bool true)] "updatedAt" (Val.int 9))).get "text"
      = Obj.get [("text", Val.str "a"), ("updatedAt", Val.int 2)] "text" ∧
    (Obj.merge [("text", Val.str "a"), ("updatedAt", Val.int 2)]
        (Obj.set [("done", Val.bool true)] "updatedAt" (Val.int 9))).get "updatedAt"
      = some (Val.int 9) ∧
    (2 : Int) < 9 := by
  have h := update_merge_semantics 0 [("done", Val.bool true)]
    [("text", Val.str "a"), ("updatedAt", Val.int 2)] 9 2
    ⟨[(0, [("text", Val.str "a"), ("updatedAt", Val.int 2)])], [], 1⟩
    rfl (by decide) (by decide)
  exact ⟨h.1, h.2.2.1 rfl, h.2.2.2.1 rfl, h.2.2.2.2.1, h.2.2.2.2.2⟩

/-- C10: on an existing note, the persisted record after Update carries
`updatedAt = now` — the server's clock value — even when the request body
itself supplies an `updatedAt`; every other body field, `createdAt`
included, is merged into the record exactly as given. -/
theorem update_server_clock_wins (id : Nat) (body o : Obj) (now : Int)
    (st : OwnerState) (h : alget st.notes id = some o) :
    alget (updateNote id body now st).2.notes id
      = some (Obj.merge o (Obj.set body "updatedAt" (Val.int now))) ∧
    (Obj.merge o (Obj.set body "updatedAt" (Val.int now))).get "updatedAt"
      = some (Val.int now) ∧
    (∀ v, body.get "updatedAt" = some v →
       (Obj.merge o (Obj.set body "updatedAt" (Val.int now))).get "updatedAt"
         = some (Val.int now)) ∧
    (∀ q v, q ≠ "updatedAt" → body.get q = some v →
       (Obj.merge o (Obj.set body "updatedAt" (Val.int now))).get q = some v) := by
  have hself : alget (Obj.set body "updatedAt" (Val.int now)) "updatedAt"
      = some (Val.int now) := by
    have := Obj.get_set_self body "updatedAt" (Val.int now)
    unfold Obj.get at this
    exact this
  refine ⟨?_, ?_, ?_, ?_⟩
  · show alget (childUpdate st.notes id (Obj.set body "updatedAt" (Val.int now))) id = _
    exact childUpdate_get_present _ h
  · exact Obj.get_merge_of_some o _ "updatedAt" _ hself
  · intro v _
    exact Obj.get_merge_of_some o _ "updatedAt" _ hself
  · intro q v hq hbody
    have hu : alget (Obj.set body "updatedAt" (Val.int now)) q = some v := by
      have := Obj.get_set_other body "updatedAt" q (Val.int now) hq
      unfold Obj.get at this
      rw [this]
      exact hbody
    exact Obj.get_merge_of_some o _ q _ hu

/-- Witness for `update_server_clock_wins`: a body that tries to smuggle
`updatedAt:1` and `createdAt:0` past the server at time 9. -/
theorem update_server_clock_wins_witness :
    alget (updateNote 0 [("updatedAt", Val.int 1), ("createdAt", Val.int 0)] 9
        ⟨[(0, [("text", Val.str "a")])], [], 1⟩).2.notes 0
      = some (Obj.merge [("text", Val.str "a")]
          (Obj.set [("updatedAt", Val.int 1), ("createdAt", Val.int 0)] "updatedAt"
            (Val.int 9))) ∧
    (Obj.merge [("text", Val.str "a")]
        (Obj.set [("updatedAt", Val.int 1), ("createdAt", Val.int 0)] "updatedAt"
          (Val.int 9))).get "updatedAt" = some (Val.int 9) ∧
    (Obj.merge [("text", Val.str "a")]
        (Obj.set [("updatedAt", Val.int 1), ("createdAt", Val.int 0)] "updatedAt"
          (Val.int 9))).get "createdAt" = some (Val.int 0) := by
  have h := update_server_clock_wins 0 [("updatedAt", Val.int 1), ("createdAt", Val.int 0)]
    [("text", Val.str "a")] 9 ⟨[(0, [("text", Val.str "a")])], [], 1⟩ rfl
  exact ⟨h.1, h.2.2.1 (Val.int 1) rfl, h.2.2.2 "createdAt" (Val.int 0) (by decide) rfl⟩

/-- Two records agree on every field other than `deletedAt` — the content a
note keeps while moving between the active and trash collections. -/
def sameContent (o note : Obj) : Prop :=
  ∀ q, q ≠ "deletedAt" → o.get q = note.get q

/-- C2: in both SoftDelete and Restore the destination write completes
before the source removal is attempted.  The middle state of the trace —
what remains if the removal step fails after the creation step succeeded —
holds the record in both collections, the operation's final state is the
trace's last state, and every state of either trace keeps the record's
content in the active or the trash collection, never in neither. -/
theorem duplication_over_loss (id : Nat) (now : Int) (st : OwnerState)
    (hwf : st.WF) :
    (∀ note, alget st.notes id = some note →
       softDeleteTrace id now st =
         [st,
          { st with trash := st.trash ++ [(st.next, mkTrashed note now)],
                    next := st.next + 1 },
          (softDelete id now st).2] ∧
       alget ({ st with trash := st.trash ++ [(st.next, mkTrashed note now)],
                        next := st.next + 1 } : OwnerState).notes id = some note ∧
       alget ({ st with trash := st.trash ++ [(st.next, mkTrashed note now)],
                        next := st.next + 1 } : OwnerState).trash st.next
         = some (mkTrashed note now) ∧
       (∀ s ∈ softDeleteTrace id now st,
          (∃ k o, alget s.notes k = some o ∧ sameContent o note) ∨
          (∃ k o, alget s.trash k = some o ∧ sameContent o note))) ∧
    (∀ item, alget st.trash id = some item →
       restoreTrace id st =
         [st,
          { st with notes := st.notes ++ [(st.next, item)], next := st.next + 1 },
          (restore id st).2] ∧
       alget ({ st with notes := st.notes ++ [(st.next, item)],
                        next := st.next + 1 } : OwnerState).trash id = some item ∧
       alget ({ st with notes := st.notes ++ [(st.next, item)],
                        next := st.next + 1 } : OwnerState).notes st.next = some item ∧
       (∀ s ∈ restoreTrace id st,
          (∃ k o, alget s.notes k = some o ∧ sameContent o item) ∨
          (∃ k o, alget s.trash k = some o ∧ sameContent o item))) := by
  have htfresh : alget st.trash st.next = none := alget_none_of_lt hwf.2.2.2
  have hnfresh : alget st.notes st.next = none := alget_none_of_lt hwf.2.2.1
  constructor
  · intro note h
    have htr : softDeleteTrace id now st =
        [st,
         { st with trash := st.trash ++ [(st.next, mkTrashed note now)],
                   next := st.next + 1 },
         { st with trash := st.trash ++ [(st.next, mkTrashed note now)],
                   notes := alremove st.notes id,
                   next := st.next + 1 }] := by
      rw [softDeleteTrace, h]
    have hfin : (softDelete id now st).2 =
        { st with trash := st.trash ++ [(st.next, mkTrashed note now)],
                  notes := alremove st.notes id,
                  next := st.next + 1 } := by
      rw [softDelete, h]
    have hmidtrash : alget (st.trash ++ [(st.next, mkTrashed note now)]) st.next
        = some (mkTrashed note now) := by
      rw [alget_append_of_none _ htfresh, alget_cons, if_pos rfl]
    have hsame : sameContent (mkTrashed note now) note := fun q hq =>
      Obj.get_set_other note "deletedAt" q (Val.int now) hq
    refine ⟨by rw [htr, hfin], h, hmidtrash, ?_⟩
    intro s hs
    rw [htr] at hs
    simp only [List.mem_cons, List.not_mem_nil, or_false] at hs
    rcases hs with hs | hs | hs
    · subst hs
      exact Or.inl ⟨id, note, h, fun q _ => rfl⟩
    · subst hs
      exact Or.inl ⟨id, note, h, fun q _ => rfl⟩
    · subst hs
      exact Or.inr ⟨st.next, mkTrashed note now, hmidtrash, hsame⟩
  · intro item h
    have htr : restoreTrace id st =
        [st,
         { st with notes := st.notes ++ [(st.next, item)], next := st.next + 1 },
         { st with notes := st.notes ++ [(st.next, item)],
                   trash := alremove st.trash id,
                   next := st.next + 1 }] := by
      rw [restoreTrace, h]
    have hfin : (restore id st).2 =
        { st with notes := st.notes ++ [(st.next, item)],
                  trash := alremove st.trash id,
                  next := st.next + 1 } := by
      rw [restore, h]
    have hmidnotes : alget (st.notes ++ [(st.next, item)]) st.next = some item := by
      rw [alget_append_of_none _ hnfresh, alget_cons, if_pos rfl]
    refine ⟨by rw [htr, hfin], h, hmidnotes, ?_⟩
    intro s hs
    rw [htr] at hs
    simp only [List.mem_cons, List.not_mem_nil, or_false] at hs
    rcases hs with hs | hs | hs
    · subst hs
      exact Or.inr ⟨id, item, h, fun q _ => rfl⟩
    · subst hs
      exact Or.inl ⟨st.next, item, hmidnotes, fun q _ => rfl⟩
    · subst hs
      exact Or.inl ⟨st.next, item, hmidnotes, fun q _ => rfl⟩

/-- Witness for `duplication_over_loss`: the middle state of each trace holds
the record in both collections for a concrete one-record store. -/
theorem duplication_over_loss_witness :
    alget ({ (⟨[(0, [("text", Val.str "a")])], [], 1⟩ : OwnerState) with
             trash := [] ++ [(1, mkTrashed [("text", Val.str "a")] 7)],
             next := 2 } : OwnerState).notes 0 = some [("text", Val.str "a")] ∧
    alget ({ (⟨[(0, [("text", Val.str "a")])], [], 1⟩ : OwnerState) with
             trash := [] ++ [(1, mkTrashed [("text", Val.str "a")] 7)],
             next := 2 } : OwnerState).trash 1
      = some (mkTrashed [("text", Val.str "a")] 7) ∧
    alget ({ (⟨[], [(0, [("text", Val.str "b"), ("deletedAt", Val.int 3)])], 1⟩
              : OwnerState) with
             notes := [] ++ [(1, [("text", Val.str "b"), ("deletedAt", Val.int 3)])],
             next := 2 } : OwnerState).trash 0
      = some [("text", Val.str "b"), ("deletedAt", Val.int 3)] ∧
    alget ({ (⟨[], [(0, [("text", Val.str "b"), ("deletedAt", Val.int 3)])], 1⟩
              : OwnerState) with
             notes := [] ++ [(1, [("text", Val.str "b"), ("deletedAt", Val.int 3)])],
             next := 2 } : OwnerState).notes 1
      = some [("text", Val.str "b"), ("deletedAt", Val.int 3)] := by
  have h := (duplication_over_loss 0 7 ⟨[(0, [("text", Val.str "a")])], [], 1⟩
    (by decide)).1 [("text", Val.str "a")] rfl
  have h2 := (duplication_over_loss 0 7
    ⟨[], [(0, [("text", Val.str "b"), ("deletedAt", Val.int 3)])], 1⟩
    (by decide)).2 [("text", Val.str "b"), ("deletedAt", Val.int 3)] rfl
  exact ⟨h.2.1, h.2.2.1, h2.2.1, h2.2.2.1⟩

/-- C9: the persisted note of Create consists of exactly the fields `text`,
`file`, `createdAt` and `updatedAt`; `text` defaults to the empty string
when absent or falsy, `file` defaults to `null` when absent, and any other
field of the request body — `id`, `createdAt`, `updatedAt` included — cannot
influence the stored record. -/
theorem create_schema (body body2 : Obj) (now : Int) :
    (body.get "text" = none → (mkNote body now).get "text" = some (Val.str "")) ∧
    (∀ v, body.get "text" = some v → jsTruthy v = false →
       (mkNote body now).get "text" = some (Val.str "")) ∧
    (body.get "file" = none → (mkNote body now).get "file" = some Val.null) ∧
    (∀ q, q ≠ "text" → q ≠ "file" → q ≠ "createdAt" → q ≠ "updatedAt" →
       (mkNote body now).get q = none) ∧
    (body.get "text" = body2.get "text" → body.get "file" = body2.get "file" →
       mkNote body now = mkNote body2 now) := by
  refine ⟨?_, ?_, ?_, ?_, ?_⟩
  · intro h
    have h2 : alget body "text" = none := h
    simp [mkNote, Obj.get, alget, h2, jsOr]
  · intro v h hfalsy
    have h2 : alget body "text" = some v := h
    simp [mkNote, Obj.get, alget, h2, jsOr, hfalsy]
  · intro h
    have h2 : alget body "file" = none := h
    simp [mkNote, Obj.get, alget, h2, jsOr]
  · intro q h1 h2 h3 h4
    show alget (mkNote body now) q = none
    rw [mkNote, alget_cons, if_neg (fun h => h1 h.symm), alget_cons,
        if_neg (fun h => h2 h.symm), alget_cons, if_neg (fun h => h3 h.symm),
        alget_cons, if_neg (fun h => h4 h.symm)]
    rfl
  · intro ht hf
    rw [mkNote, mkNote, ht, hf]

/-- Witness for `create_schema`: an adversarial body carrying `id`,
`createdAt`, `updatedAt` and a falsy text. -/
theorem create_schema_witness :
    (mkNote [("text", Val.str ""), ("id", Val.int 99), ("createdAt", Val.int 1)] 5).get "text"
      = some (Val.str "") ∧
    (mkNote [("text", Val.str ""), ("id", Val.int 99), ("createdAt", Val.int 1)] 5).get "id"
      = none ∧
    (mkNote [("text", Val.str ""), ("id", Val.int 99), ("createdAt", Val.int 1)] 5).get "file"
      = some Val.null ∧
    mkNote [("text", Val.str ""), ("id", Val.int 99), ("createdAt", Val.int 1)] 5
      = mkNote [("text", Val.str "")] 5 := by
  have h := create_schema [("text", Val.str ""), ("id", Val.int 99), ("createdAt", Val.int 1)]
    [("text", Val.str "")] 5
  exact ⟨h.2.1 (Val.str "") rfl rfl, h.2.2.2.1 "id" (by decide) (by decide) (by decide)
    (by decide), h.2.2.1 rfl, h.2.2.2.2 rfl rfl⟩

/-! ### Owner isolation -/

theorem runOwner_frame (uid b : String) (f : OwnerState → Resp × OwnerState)
    (db : Db) (h : b ≠ uid) :
    getOwner (runOwner uid f db).2 b = getOwner db b := by
  show getOwner (setOwner db uid (f (getOwner db uid)).2) b = getOwner db b
  unfold setOwner getOwner
  rw [alget_alput_other _ _ _ _ h]

theorem runOwner_resp (uid : String) (f : OwnerState → Resp × OwnerState)
    (db db2 : Db) (h : getOwner db uid = getOwner db2 uid) :
    (runOwner uid f db).1 = (runOwner uid f db2).1 := by
  show (f (getOwner db uid)).1 = (f (getOwner db2 uid)).1
  rw [h]

theorem runOwner_self (uid : String) (f : OwnerState → Resp × OwnerState)
    (db db2 : Db) (h : getOwner db uid = getOwner db2 uid) :
    getOwner (runOwner uid f db).2 uid = getOwner (runOwner uid f db2).2 uid := by
  show getOwner (setOwner db uid (f (getOwner db uid)).2) uid
      = getOwner (setOwner db2 uid (f (getOwner db2 uid)).2) uid
  unfold setOwner getOwner
  rw [alget_alput_self, alget_alput_self]
  unfold getOwner at h
  rw [h]

/-- C8: every endpoint acts only on the collections of the uid taken from the
verified token.  Run as owner `a`, each of the seven endpoints leaves any
other owner `b`'s stored state (active notes and trash alike) unchanged, and
both its response and the resulting state of `a` depend only on `a`'s stored
state and the request inputs — two databases agreeing on `a` produce the
same response and the same new state for `a`.  No uid from the body or path
occurs: the per-owner transition functions do not take one. -/
theorem owner_isolation (a b : String) (idn : Nat) (body : Obj) (now : Int)
    (db db2 : Db) (hab : b ≠ a) (hsame : getOwner db a = getOwner db2 a) :
    (getOwner (apiListNotes a db).2 b = getOwner db b ∧
     getOwner (apiCreateNote a body now db).2 b = getOwner db b ∧
     getOwner (apiUpdateNote a idn body now db).2 b = getOwner db b ∧
     getOwner (apiSoftDelete a idn now db).2 b = getOwner db b ∧
     getOwner (apiListTrash a db).2 b = getOwner db b ∧
     getOwner (apiRestore a idn db).2 b = getOwner db b ∧
     getOwner (apiPermDelete a idn db).2 b = getOwner db b) ∧
    ((apiListNotes a db).1 = (apiListNotes a db2).1 ∧
     (apiCreateNote a body now db).1 = (apiCreateNote a body now db2).1 ∧
     (apiUpdateNote a idn body now db).1 = (apiUpdateNote a idn body now db2).1 ∧
     (apiSoftDelete a idn now db).1 = (apiSoftDelete a idn now db2).1 ∧
     (apiListTrash a db).1 = (apiListTrash a db2).1 ∧
     (apiRestore a idn db).1 = (apiRestore a idn db2).1 ∧
     (apiPermDelete a idn db).1 = (apiPermDelete a idn db2).1) ∧
    (getOwner (apiListNotes a db).2 a = getOwner (apiListNotes a db2).2 a ∧
     getOwner (apiCreateNote a body now db).2 a
       = getOwner (apiCreateNote a body now db2).2 a ∧
     getOwner (apiUpdateNote a idn body now db).2 a
       = getOwner (apiUpdateNote a idn body now db2).2 a ∧
     getOwner (apiSoftDelete a idn now db).2 a
       = getOwner (apiSoftDelete a idn now db2).2 a ∧
     getOwner (apiListTrash a db).2 a = getOwner (apiListTrash a db2).2 a ∧
     getOwner (apiRestore a idn db).2 a = getOwner (apiRestore a idn db2).2 a ∧
     getOwner (apiPermDelete a idn db).2 a = getOwner (apiPermDelete a idn db2).2 a) := by
  refine ⟨⟨?_, ?_, ?_, ?_, ?_, ?_, ?_⟩, ⟨?_, ?_, ?_, ?_, ?_, ?_, ?_⟩,
          ⟨?_, ?_, ?_, ?_, ?_, ?_, ?_⟩⟩
  · exact runOwner_frame a b _ db hab
  · exact runOwner_frame a b _ db hab
  · exact runOwner_frame a b _ db hab
  · exact runOwner_frame a b _ db hab
  · exact runOwner_frame a b _ db hab
  · exact runOwner_frame a b _ db hab
  · exact runOwner_frame a b _ db hab
  · exact runOwner_resp a _ db db2 hsame
  · exact runOwner_resp a _ db db2 hsame
  · exact runOwner_resp a _ db db2 hsame
  · exact runOwner_resp a _ db db2 hsame
  · exact runOwner_resp a _ db db2 hsame
  · exact runOwner_resp a _ db db2 hsame
  · exact runOwner_resp a _ db db2 hsame
  · exact runOwner_self a _ db db2 hsame
  · exact runOwner_self a _ db db2 hsame
  · exact runOwner_self a _ db db2 hsame
  · exact runOwner_self a _ db db2 hsame
  · exact runOwner_self a _ db db2 hsame
  · exact runOwner_self a _ db db2 hsame
  · exact runOwner_self a _ db db2 hsame

/-- Witness for `owner_isolation`: owners `"alice"` and `"bob"` over a
one-owner database, compared with the empty database extended identically
for `"alice"`. -/
theorem owner_isolation_witness :
    getOwner (apiCreateNote "alice" [] 5
        [("alice", ⟨[], [], 0⟩), ("bob", ⟨[(0, [("text", Val.str "b")])], [], 1⟩)]).2 "bob"
      = getOwner [("alice", ⟨[], [], 0⟩),
          ("bob", ⟨[(0, [("text", Val.str "b")])], [], 1⟩)] "bob" ∧
    (apiCreateNote "alice" [] 5
        [("alice", ⟨[], [], 0⟩), ("bob", ⟨[(0, [("text", Val.str "b")])], [], 1⟩)]).1
      = (apiCreateNote "alice" [] 5 [("alice", ⟨[], [], 0⟩)]).1 := by
  have h := owner_isolation "alice" "bob" 0 [] 5
    [("alice", ⟨[], [], 0⟩), ("bob", ⟨[(0, [("text", Val.str "b")])], [], 1⟩)]
    [("alice", ⟨[], [], 0⟩)] (by decide) (by decide)
  exact ⟨h.1.2.1, h.2.1.2.1⟩
